import Mathlib

/-!
Shallow embedding of the rule-expression evaluation engine of
`src/lib/common/rules.c` (date expressions, date specifications, duration
arithmetic, typed value comparison and submatch expansion), together with
theorems settling the specification's claims against it.

External collaborators (the `crm_time` calendar library, string utilities
and the range parser live outside `src/`) are modelled from the
specification's description of their interfaces; each such definition is
marked `Modelled from the spec:` in its doc comment.  Everything else is a
direct translation of the C in `rules.c`.
-/

namespace Rules

/-- Return codes produced by `rules.c`, mirroring the standard Pacemaker
return codes it uses: `pcmk_rc_ok`, `pcmk_rc_within_range`,
`pcmk_rc_before_range`, `pcmk_rc_after_range`, `pcmk_rc_undetermined`,
`pcmk_rc_unpack_error`, and `EINVAL` for contract violations. -/
inductive Rc where
  | ok
  | within_range
  | before_range
  | after_range
  | undetermined
  | unpack_error
  | einval
  deriving DecidableEq

/-- The seven duration components of `enum pcmk__time_component`, largest
unit first. -/
inductive TimeComp where
  | years
  | months
  | weeks
  | days
  | hours
  | minutes
  | seconds
  deriving DecidableEq

/-- Modelled from the spec: a Time Instant (`crm_time_t`, maintained by the
external `iso8601.c` library) is an opaque point in calendar time
supporting comparison, addition of whole seconds, and decomposition into
Gregorian year/month/day, hour/minute/second, ordinal day-of-year and ISO
week-year/week/weekday components.  `sec` is the linear value used by
comparison and second addition; the component fields are the
decompositions read by the date-specification matcher; `applied` records
calendar-component additions made by duration arithmetic, whose rollover
semantics the spec leaves to the external library (spec section 9), so no
theorem below depends on the linear value of a duration-shifted
instant. -/
structure Instant where
  sec : Int
  year : Nat
  month : Nat
  monthday : Nat
  hour : Nat
  minute : Nat
  second : Nat
  yearday : Nat
  weekyear : Nat
  week : Nat
  weekday : Nat
  applied : List (TimeComp × Int)
  deriving DecidableEq

/-- Modelled from the spec: `crm_time_compare` (external) — three-way
comparison of two instants by their position in time. -/
def crm_time_compare (a b : Instant) : Int :=
  if a.sec < b.sec then -1 else if b.sec < a.sec then 1 else 0

/-- Modelled from the spec: `crm_time_add_seconds` (external) — addition of
a whole number of seconds producing a new instant.  The external library
keeps the calendar decomposition consistent with the linear value; no
theorem below reads the decomposition of a shifted instant. -/
def crm_time_add_seconds (t : Instant) (n : Int) : Instant :=
  { t with sec := t.sec + n }

/-- Modelled from the spec: `pcmk_copy_time` (external) — an independent
copy of an instant. -/
def pcmk_copy_time (t : Instant) : Instant := t

/-- A `crm_time_t *next_change` argument: `none` is a NULL pointer,
`some none` a supplied but still undefined time, `some (some t)` a
supplied, defined time. -/
abbrev NextChange := Option (Option Instant)

/-- Modelled from the spec: `pcmk__set_time_if_earlier` (external) —
merge a candidate instant into a next-change target only if the target is
supplied and is either still undefined or later than the candidate. -/
def pcmk__set_time_if_earlier : NextChange → Instant → NextChange
  | none, _ => none
  | some none, s => some (some s)
  | some (some t), s =>
      if crm_time_compare s t < 0 then some (some s) else some (some t)

/-- Value of a nonempty all-digit character sequence, accumulator form. -/
def digits_val_aux (acc : Nat) : List Char → Option Nat
  | [] => some acc
  | c :: rest =>
      if c.isDigit then digits_val_aux (acc * 10 + (c.toNat - 48)) rest
      else none

/-- Value of a nonempty all-digit character sequence; `none` otherwise. -/
def digits_val : List Char → Option Nat
  | [] => none
  | l => digits_val_aux 0 l

/-- Split a character sequence at every dash, keeping empty pieces (the
character-level equivalent of splitting a string on "-"). -/
def split_on_dash : List Char → List (List Char)
  | [] => [[]]
  | c :: rest =>
      if c = '-' then [] :: split_on_dash rest
      else
        match split_on_dash rest with
        | h :: t => (c :: h) :: t
        | [] => [[c]]

/-- Modelled from the spec: `pcmk__parse_ll_range` (external) — range
syntax per field is a single integer N (low = high = N), a bounded pair
"N-M" requiring low <= high, an open-low "-M" or an open-high "N-"; an
unbounded side is reported as -1; malformed syntax is a parse failure. -/
def pcmk__parse_ll_range (s : String) : Option (Int × Int) :=
  match split_on_dash s.toList with
  | [l] => (digits_val l).map fun n => ((n : Int), (n : Int))
  | [[], h] => (digits_val h).map fun m => (-1, (m : Int))
  | [l, []] => (digits_val l).map fun n => ((n : Int), -1)
  | [l, h] =>
      match digits_val l, digits_val h with
      | some n, some m => if n ≤ m then some ((n : Int), (m : Int)) else none
      | _, _ => none
  | _ => none

/-- `check_range` from `rules.c`: check one value against one range
attribute of a date specification.  An absent attribute, or one whose
range string does not parse (logged and ignored for backward
compatibility), passes; otherwise a value below a bounded low end is
`before_range` and a value above a bounded high end is `after_range`. -/
def check_range (range : Option String) (value : Nat) : Rc :=
  match range with
  | none => Rc.ok
  | some s =>
      match pcmk__parse_ll_range s with
      | none => Rc.ok
      | some (low, high) =>
          if low ≠ -1 ∧ (value : Int) < low then Rc.before_range
          else if high ≠ -1 ∧ (value : Int) > high then Rc.after_range
          else Rc.ok

/-- `phase_of_the_moon` from `rules.c`: the nethack lunar-phase
approximation on the ordinal decomposition (year, day-of-year), producing
a phase 0-7.  The C arithmetic is on `uint32_t`; the single wrap point is
reproduced with an explicit modulus. -/
def phase_of_the_moon (year yearday : Nat) : Nat :=
  let goldn := (year % 19) + 1
  let epact0 := (11 * goldn + 18) % 30
  let epact := if (epact0 = 25 ∧ goldn > 11) ∨ epact0 = 24 then epact0 + 1 else epact0
  ((((yearday + epact) * 6 + 11) % (2 ^ 32)) % 177) / 22 % 8

/-- A `PCMK_XE_DATE_SPEC` element: the eleven optional range-string
attributes, in the order `rules.c` lists them. -/
structure DateSpec where
  years : Option String
  months : Option String
  monthdays : Option String
  hours : Option String
  minutes : Option String
  seconds : Option String
  yeardays : Option String
  weekyears : Option String
  weeks : Option String
  weekdays : Option String
  moon : Option String
  deriving DecidableEq

/-- The `ranges[]` table of `pcmk__evaluate_date_spec`: each range
attribute paired with the corresponding component of `now`, in the fixed
order of the C array. -/
def date_spec_fields (ds : DateSpec) (now : Instant) : List (Option String × Nat) :=
  [(ds.years, now.year),
   (ds.months, now.month),
   (ds.monthdays, now.monthday),
   (ds.hours, now.hour),
   (ds.minutes, now.minute),
   (ds.seconds, now.second),
   (ds.yeardays, now.yearday),
   (ds.weekyears, now.weekyear),
   (ds.weeks, now.week),
   (ds.weekdays, now.weekday),
   (ds.moon, phase_of_the_moon now.year now.yearday)]

/-- The evaluation loop of `pcmk__evaluate_date_spec`: return the first
check result other than `ok`, or `ok` if every check passes. -/
def run_checks : List (Option String × Nat) → Rc
  | [] => Rc.ok
  | (r, v) :: rest =>
      match check_range r v with
      | Rc.ok => run_checks rest
      | rc => rc

/-- `pcmk__evaluate_date_spec` from `rules.c`: `EINVAL` on a NULL argument,
otherwise the loop over the eleven range attributes. -/
def pcmk__evaluate_date_spec (date_spec : Option DateSpec) (now : Option Instant) : Rc :=
  match date_spec, now with
  | some ds, some t => run_checks (date_spec_fields ds t)
  | _, _ => Rc.einval

/-! ## Comparison and type system -/

/-- The value types of `enum pcmk__type` that `pcmk__cmp_by_type` can
receive. -/
inductive PcmkType where
  | string
  | integer
  | number
  | version
  | unknown
  deriving DecidableEq

/-- Modelled from the spec: the character-by-character loop of
`strcasecmp` (libc) — at the first position where the case-folded
characters differ (the terminator counting as 0, so a proper prefix sorts
lower) the sign of their difference decides. -/
def cmp_char_lists : List Char → List Char → Int
  | [], [] => 0
  | [], _ :: _ => -1
  | _ :: _, [] => 1
  | a :: la, b :: lb =>
      if a.toLower.toNat < b.toLower.toNat then -1
      else if b.toLower.toNat < a.toLower.toNat then 1
      else cmp_char_lists la lb

/-- Modelled from the spec: `strcasecmp` (libc) — case-insensitive
lexicographic comparison of two strings.  POSIX specifies only the sign of
the result, which is normalised here to -1/0/1 as the repository's API
documentation assumes. -/
def strcasecmp (a b : String) : Int :=
  cmp_char_lists a.toList b.toList

/-- Modelled from the spec: `pcmk__scan_ll` (external) — parse a string as
a signed 64-bit integer: an optional sign followed by digits, with the
value representable in 64 bits. -/
def pcmk__scan_ll (s : String) : Option Int :=
  match s.toList with
  | '-' :: rest =>
      (digits_val rest).bind fun n =>
        if (n : Int) ≤ 2 ^ 63 then some (-(n : Int)) else none
  | '+' :: rest =>
      (digits_val rest).bind fun n =>
        if (n : Int) < 2 ^ 63 then some ((n : Int)) else none
  | l =>
      (digits_val l).bind fun n =>
        if (n : Int) < 2 ^ 63 then some ((n : Int)) else none

/-- Modelled from the spec: `pcmk__scan_double` (external) — parse a
string as a floating-point number; plain decimal notation (optional sign,
integer part, optional fraction) is modelled exactly as a rational, since
no claim depends on binary-float rounding. -/
def scan_decimal_digits : List Char → Option Rat
  | l =>
      match l.span Char.isDigit with
      | (ip, []) => (digits_val ip).map fun n => (n : Rat)
      | (ip, '.' :: frac) =>
          match digits_val ip, digits_val frac with
          | some n, some m => some ((n : Rat) + (m : Rat) / ((10 : Rat) ^ frac.length))
          | _, _ => none
      | _ => none

/-- Modelled from the spec (see `scan_decimal_digits`): sign handling of
the floating-point parse. -/
def pcmk__scan_double (s : String) : Option Rat :=
  match s.toList with
  | '-' :: rest => (scan_decimal_digits rest).map fun q => -q
  | '+' :: rest => scan_decimal_digits rest
  | l => scan_decimal_digits l

/-- Modelled from the spec: the numeric fields of a version string, split
on dots; a missing or malformed component counts as zero. -/
def version_fields (s : String) : List Nat :=
  (s.splitOn ".").map fun p => (digits_val p.toList).getD 0

/-- Modelled from the spec: componentwise comparison of version fields,
treating missing trailing components as zero. -/
def cmp_version_fields : List Nat → List Nat → Int
  | [], [] => 0
  | a :: la, [] => if 0 < a then 1 else cmp_version_fields la []
  | [], b :: lb => if 0 < b then -1 else cmp_version_fields [] lb
  | a :: la, b :: lb =>
      if a < b then -1 else if b < a then 1 else cmp_version_fields la lb

/-- Modelled from the spec: `compare_version` (external) — dotted-numeric
componentwise comparison. -/
def compare_version (a b : String) : Int :=
  cmp_version_fields (version_fields a) (version_fields b)

/-- `pcmk__cmp_by_type` from `rules.c`: three-way comparison of two
optional values under a value type.  NULL handling is independent of the
type; `integer` and `number` fall back to the `string` comparison when
either side fails to parse (the C recurses with `pcmk__type_string`, which
is exactly `strcasecmp`). -/
def pcmk__cmp_by_type (l_val r_val : Option String) (type : PcmkType) : Int :=
  match l_val, r_val with
  | some l, some r =>
      match type with
      | PcmkType.string => strcasecmp l r
      | PcmkType.integer =>
          match pcmk__scan_ll l, pcmk__scan_ll r with
          | some a, some b => if a < b then -1 else if b < a then 1 else 0
          | _, _ => strcasecmp l r
      | PcmkType.number =>
          match pcmk__scan_double l, pcmk__scan_double r with
          | some a, some b => if a < b then -1 else if b < a then 1 else 0
          | _, _ => strcasecmp l r
      | PcmkType.version => compare_version l r
      | PcmkType.unknown => 0
  | none, none => 0
  | some _, none => 1
  | none, some _ => -1

/-! ## Submatch expansion -/

/-- `process_submatches` from `rules.c`, fused into a single pass that
returns both what the C's counting pass reports (whether any `%N`
placeholder was seen) and what its expansion pass writes.  A `%` not
followed by a digit is copied verbatim; a placeholder whose group index is
out of range, whose group did not participate (`rm_so < 0`), or whose
captured range is empty (`rm_eo <= rm_so`) is deleted; a live placeholder
is replaced by the captured slice of the matched subject. -/
def process_submatches (src : List Char) (mtch : List Char)
    (submatches : List (Int × Int)) (nmatches : Nat) : Bool × List Char :=
  match src with
  | [] => (false, [])
  | [c] => (false, [c])
  | c :: d :: rest =>
      if c = '%' ∧ d.isDigit then
        let submatch := d.toNat - 48
        let r := process_submatches rest mtch submatches nmatches
        if nmatches ≤ submatch then (true, r.2)
        else
          let m := submatches.getD submatch (-1, -1)
          if m.1 < 0 ∨ m.2 ≤ m.1 then (true, r.2)
          else (true, (mtch.drop m.1.toNat).take (m.2 - m.1).toNat ++ r.2)
      else
        let r := process_submatches (d :: rest) mtch submatches nmatches
        (r.1, c :: r.2)

/-- Whether a template contains a `%` immediately followed by a digit —
the condition under which the C's counting pass reports that an expansion
is needed. -/
def has_placeholder : List Char → Bool
  | [] => false
  | [_] => false
  | c :: d :: rest =>
      if c = '%' ∧ d.isDigit then true else has_placeholder (d :: rest)

/-- `pcmk__replace_submatches` from `rules.c`: NULL (`none`) for an empty
template or when the counting pass reports that no expansion is needed;
otherwise the expanded string. -/
def pcmk__replace_submatches (string mtch : String)
    (submatches : List (Int × Int)) (nmatches : Nat) : Option String :=
  if string = "" then none
  else
    let r := process_submatches string.toList mtch.toList submatches nmatches
    if r.1 then some (String.mk r.2) else none

/-! ## Duration calculator -/

/-- Modelled from the spec: one duration component attribute as the
external parser inside `pcmk__add_time_from_xml` sees it — absent,
present but invalid or out of range, or a valid signed integer. -/
inductive CompAttr where
  | absent
  | invalid
  | valid (n : Int)
  deriving DecidableEq

/-- A `PCMK_XE_DURATION` element: its seven component attributes. -/
structure DurationXml where
  years : CompAttr
  months : CompAttr
  weeks : CompAttr
  days : CompAttr
  hours : CompAttr
  minutes : CompAttr
  seconds : CompAttr
  deriving DecidableEq

/-- The attribute of a duration element for a given time component. -/
def duration_component (d : DurationXml) : TimeComp → CompAttr
  | TimeComp.years => d.years
  | TimeComp.months => d.months
  | TimeComp.weeks => d.weeks
  | TimeComp.days => d.days
  | TimeComp.hours => d.hours
  | TimeComp.minutes => d.minutes
  | TimeComp.seconds => d.seconds

/-- Modelled from the spec: `pcmk__add_time_from_xml` (external) — read
one component attribute of a duration element and add it to an instant.
An absent attribute is a no-op that succeeds; an invalid one fails and
leaves the instant unchanged; a valid one succeeds, and the calendar
addition itself (whose rollover semantics the spec leaves open, section 9)
is recorded on the instant's `applied` trace. -/
def pcmk__add_time_from_xml (t : Instant) (component : TimeComp)
    (duration : DurationXml) : Instant × Rc :=
  match duration_component duration component with
  | CompAttr.absent => (t, Rc.ok)
  | CompAttr.invalid => (t, Rc.unpack_error)
  | CompAttr.valid n => ({ t with applied := t.applied ++ [(component, n)] }, Rc.ok)

/-- The seven components in the order `pcmk__unpack_duration` applies
them: largest unit first. -/
def time_components : List TimeComp :=
  [TimeComp.years, TimeComp.months, TimeComp.weeks, TimeComp.days,
   TimeComp.hours, TimeComp.minutes, TimeComp.seconds]

/-- One `ADD_COMPONENT` step of `pcmk__unpack_duration`: attempt the
component on the working end time; on failure keep the time, log, and
record the error in the running return code. -/
def add_component_step (duration : DurationXml) (acc : Instant × Rc)
    (component : TimeComp) : Instant × Rc :=
  let r := pcmk__add_time_from_xml acc.1 component duration
  (r.1, if r.2 = Rc.ok then acc.2 else r.2)

/-- `pcmk__unpack_duration` from `rules.c` (non-NULL arguments): copy the
start time and apply the seven `ADD_COMPONENT` steps in order, returning
the best-effort end time and the accumulated return code. -/
def pcmk__unpack_duration (duration : DurationXml) (start : Instant) : Instant × Rc :=
  time_components.foldl (add_component_step duration) (pcmk_copy_time start, Rc.ok)

/-! ## Temporal expression evaluator -/

/-- Modelled from the spec: the result of reading a datetime attribute via
the external `pcmk__xe_get_datetime` — attribute absent (success, no
time), present but unparsable (failure, no time), or a valid instant. -/
inductive DatetimeAttr where
  | absent
  | invalid
  | valid (t : Instant)
  deriving DecidableEq

/-- The instant a datetime attribute yields, if any. -/
def DatetimeAttr.toOption : DatetimeAttr → Option Instant
  | DatetimeAttr.valid t => some t
  | _ => none

/-- A `PCMK_XE_DATE_EXPRESSION` element: its operation and datetime
attributes and its optional `duration` and `date_spec` subelements. -/
structure DateExpr where
  operation : Option String
  start : DatetimeAttr
  endt : DatetimeAttr
  duration : Option DurationXml
  date_spec : Option DateSpec
  deriving DecidableEq

/-- The end-time half of `evaluate_in_range`: past a resolved end is
`after_range`; otherwise `within_range`, offering the second after the end
as the next-change candidate when an end exists. -/
def in_range_end_check (endt : Option Instant) (now : Instant)
    (next_change : NextChange) : Rc × NextChange :=
  match endt with
  | none => (Rc.within_range, next_change)
  | some e =>
      if crm_time_compare now e > 0 then (Rc.after_range, next_change)
      else (Rc.within_range,
            pcmk__set_time_if_earlier next_change (crm_time_add_seconds e 1))

/-- `evaluate_in_range` from `rules.c`: an invalid `start` or `end`
attribute is logged and treated as absent; with neither resolvable the
verdict is `undetermined`; a missing end is derived from a `duration`
subelement when one exists; before the start is `before_range` with the
start as next-change candidate; then the end check decides. -/
def evaluate_in_range (expr : DateExpr) (now : Instant)
    (next_change : NextChange) : Rc × NextChange :=
  let start? := expr.start.toOption
  let end0? := expr.endt.toOption
  if start?.isNone && end0?.isNone then (Rc.undetermined, next_change)
  else
    let end? :=
      match end0?, start?, expr.duration with
      | none, some s, some d => some (pcmk__unpack_duration d s).1
      | e?, _, _ => e?
    match start? with
    | some s =>
        if crm_time_compare now s < 0 then
          (Rc.before_range, pcmk__set_time_if_earlier next_change s)
        else in_range_end_check end? now next_change
    | none => in_range_end_check end? now next_change

/-- `evaluate_gt` from `rules.c`: an invalid or absent `start` is
`undetermined`; strictly after the start is `within_range`; otherwise
`before_range`, offering the second after the start as the next-change
candidate. -/
def evaluate_gt (expr : DateExpr) (now : Instant)
    (next_change : NextChange) : Rc × NextChange :=
  match expr.start with
  | DatetimeAttr.invalid => (Rc.undetermined, next_change)
  | DatetimeAttr.absent => (Rc.undetermined, next_change)
  | DatetimeAttr.valid s =>
      if crm_time_compare now s > 0 then (Rc.within_range, next_change)
      else (Rc.before_range,
            pcmk__set_time_if_earlier next_change (crm_time_add_seconds s 1))

/-- `evaluate_lt` from `rules.c`: an invalid or absent `end` is
`undetermined`; strictly before the end is `within_range` with the end as
the next-change candidate; otherwise `after_range`. -/
def evaluate_lt (expr : DateExpr) (now : Instant)
    (next_change : NextChange) : Rc × NextChange :=
  match expr.endt with
  | DatetimeAttr.invalid => (Rc.undetermined, next_change)
  | DatetimeAttr.absent => (Rc.undetermined, next_change)
  | DatetimeAttr.valid e =>
      if crm_time_compare now e < 0 then
        (Rc.within_range, pcmk__set_time_if_earlier next_change e)
      else (Rc.after_range, next_change)

/-- Modelled from the spec: `pcmk__str_eq` (external) against a non-NULL
token, with the case-insensitive flag and optionally the null-matches
flag: a NULL first operand matches exactly when null-matches is given;
otherwise the strings are compared ignoring case. -/
def pcmk__str_eq_ci (s : Option String) (token : String) (null_matches : Bool) : Bool :=
  match s with
  | none => null_matches
  | some v => strcasecmp v token == 0

/-- `pcmk__evaluate_date_expression` from `rules.c`: `EINVAL` on a NULL
expression or time; otherwise dispatch on the operation attribute, where a
NULL operation matches `in_range` (null-matches flag), a `date_spec`
operation without a `date_spec` subelement leaves the initial
`undetermined`, and an unrecognized operation is logged and leaves
`undetermined`. -/
def pcmk__evaluate_date_expression (date_expression : Option DateExpr)
    (now : Option Instant) (next_change : NextChange) : Rc × NextChange :=
  match date_expression, now with
  | some e, some t =>
      if pcmk__str_eq_ci e.operation "in_range" true then
        evaluate_in_range e t next_change
      else if pcmk__str_eq_ci e.operation "date_spec" false then
        match e.date_spec with
        | none => (Rc.undetermined, next_change)
        | some ds => (pcmk__evaluate_date_spec (some ds) (some t), next_change)
      else if pcmk__str_eq_ci e.operation "gt" false then
        evaluate_gt e t next_change
      else if pcmk__str_eq_ci e.operation "lt" false then
        evaluate_lt e t next_change
      else (Rc.undetermined, next_change)
  | _, _ => (Rc.einval, next_change)

/-- The closed enumeration of domain verdicts a date-expression evaluation
can produce, as distinct from the `EINVAL` contract-violation signal. -/
def domain_verdict (r : Rc) : Prop :=
  r = Rc.ok ∨ r = Rc.within_range ∨ r = Rc.before_range ∨ r = Rc.after_range
    ∨ r = Rc.undetermined

/-- The ordered trace of the valid components of a duration element, in
the largest-unit-first application order. -/
def valid_components (d : DurationXml) : List (TimeComp × Int) :=
  time_components.filterMap fun c =>
    match duration_component d c with
    | CompAttr.valid n => some (c, n)
    | _ => none

/-- Whether any component attribute of a duration element is invalid. -/
def has_invalid_component (d : DurationXml) : Bool :=
  time_components.any fun c => decide (duration_component d c = CompAttr.invalid)

/-! ## Theorems -/

theorem crm_time_compare_neg_iff (a b : Instant) :
    crm_time_compare a b < 0 ↔ a.sec < b.sec := by
  unfold crm_time_compare
  split
  · omega
  · split <;> omega

theorem crm_time_compare_pos_iff (a b : Instant) :
    crm_time_compare a b > 0 ↔ b.sec < a.sec := by
  unfold crm_time_compare
  split
  · omega
  · split <;> omega

/-- C6: NULL handling of `pcmk__cmp_by_type` is uniform across value
types: both values absent compares 0, only the right value absent
compares 1, only the left value absent compares -1; in particular for the
string type with the value "x". -/
theorem cmp_null_handling :
    (∀ t : PcmkType, pcmk__cmp_by_type none none t = 0)
    ∧ (∀ (t : PcmkType) (x : String), pcmk__cmp_by_type (some x) none t = 1)
    ∧ (∀ (t : PcmkType) (x : String), pcmk__cmp_by_type none (some x) t = -1)
    ∧ pcmk__cmp_by_type none (some "x") PcmkType.string = -1
    ∧ pcmk__cmp_by_type (some "x") none PcmkType.string = 1
    ∧ pcmk__cmp_by_type none none PcmkType.string = 0 := by
  exact ⟨fun t => rfl, fun t x => rfl, fun t x => rfl, rfl, rfl, rfl⟩

/-- C5: integer-typed comparison parses both values as signed 64-bit
integers and compares numerically, falling back to the case-insensitive
string comparison when either parse fails; in particular
compare("10","9") is 1 as integers but -1 as strings. -/
theorem cmp_integer_vs_string :
    pcmk__cmp_by_type (some "10") (some "9") PcmkType.integer = 1
    ∧ pcmk__cmp_by_type (some "10") (some "9") PcmkType.string = -1
    ∧ (∀ (l r : String) (a b : Int),
        pcmk__scan_ll l = some a → pcmk__scan_ll r = some b →
        pcmk__cmp_by_type (some l) (some r) PcmkType.integer
          = if a < b then -1 else if b < a then 1 else 0)
    ∧ (∀ l r : String,
        pcmk__scan_ll l = none ∨ pcmk__scan_ll r = none →
        pcmk__cmp_by_type (some l) (some r) PcmkType.integer
          = pcmk__cmp_by_type (some l) (some r) PcmkType.string) := by
  refine ⟨by decide, by decide, ?_, ?_⟩
  · intro l r a b ha hb
    simp [pcmk__cmp_by_type, ha, hb]
  · intro l r h
    cases hx : pcmk__scan_ll l <;> cases hy : pcmk__scan_ll r <;>
      simp_all [pcmk__cmp_by_type]

theorem check_range_cases (r : Option String) (v : Nat) :
    check_range r v = Rc.ok ∨ check_range r v = Rc.before_range
      ∨ check_range r v = Rc.after_range := by
  cases r with
  | none => exact Or.inl rfl
  | some s =>
      cases h : pcmk__parse_ll_range s with
      | none => simp [check_range, h]
      | some p =>
          obtain ⟨low, high⟩ := p
          simp only [check_range, h]
          split
          · exact Or.inr (Or.inl rfl)
          · split
            · exact Or.inr (Or.inr rfl)
            · exact Or.inl rfl

theorem run_checks_cases (l : List (Option String × Nat)) :
    run_checks l = Rc.ok ∨ run_checks l = Rc.before_range
      ∨ run_checks l = Rc.after_range := by
  induction l with
  | nil => exact Or.inl rfl
  | cons p rest ih =>
      obtain ⟨r, v⟩ := p
      rcases check_range_cases r v with h | h | h <;> simp [run_checks, h]
      · exact ih

theorem run_checks_eq_find (l : List (Option String × Nat)) :
    run_checks l
      = ((l.map fun p => check_range p.1 p.2).find? fun r => r != Rc.ok).getD Rc.ok := by
  induction l with
  | nil => rfl
  | cons p rest ih =>
      obtain ⟨r, v⟩ := p
      cases hc : check_range r v <;>
        simp [run_checks, hc, List.find?_cons, ih]

/-- C2: date specification matching checks the present fields in the
fixed order years, months, month-days, hours, minutes, seconds,
year-days, week-years, weeks, week-days, moon-phase, returning the
verdict of the first present-and-violated field and none after it
(first non-ok of the ordered check list); a field whose range string does
not parse, like an absent field, passes; a specification with no present
fields is `ok`; and a spec with an invalid months range and a violated
hours range reports the hours violation. -/
theorem date_spec_order_and_skip :
    (∀ (ds : DateSpec) (t : Instant),
        pcmk__evaluate_date_spec (some ds) (some t)
          = (((date_spec_fields ds t).map fun p => check_range p.1 p.2).find?
              fun r => r != Rc.ok).getD Rc.ok)
    ∧ (∀ (s : String) (v : Nat),
        pcmk__parse_ll_range s = none → check_range (some s) v = Rc.ok)
    ∧ (∀ v : Nat, check_range none v = Rc.ok)
    ∧ (∀ t : Instant,
        pcmk__evaluate_date_spec
          (some (DateSpec.mk none none none none none none none none none none none))
          (some t) = Rc.ok)
    ∧ pcmk__parse_ll_range "not a range" = none
    ∧ pcmk__evaluate_date_spec
        (some (DateSpec.mk none (some "not a range") none (some "9-17")
              none none none none none none none))
        (some (Instant.mk 0 2024 6 15 20 0 0 167 2024 24 6 [])) = Rc.after_range := by
  refine ⟨fun ds t => run_checks_eq_find _, ?_, fun v => rfl, fun t => rfl, by decide, by decide⟩
  intro s v h
  simp [check_range, h]

theorem process_submatches_fst (mtch : List Char) (subs : List (Int × Int))
    (n : Nat) : ∀ src : List Char,
      (process_submatches src mtch subs n).1 = has_placeholder src := by
  intro src
  induction src with
  | nil => rfl
  | cons c rest ih =>
      cases rest with
      | nil => rfl
      | cons d rest2 =>
          by_cases h : c = '%' ∧ d.isDigit
          · simp only [process_submatches, has_placeholder, if_pos h]
            split
            · rfl
            · split <;> rfl
          · simp only [process_submatches, has_placeholder, if_neg h]
            exact ih

/-- C7 counterexample: a template consisting of the placeholder `%0`
whose group captured exactly the text `%0` expands to a string equal to
the template, yet the function returns that allocated copy rather than
the distinct no-expansion result — so "no placeholder has any effect"
does not imply the NULL result; only placeholder absence does. -/
theorem replace_submatches_selfcopy_counterexample :
    pcmk__replace_submatches "%0" "%0" [(0, 2)] 1 = some "%0"
    ∧ pcmk__replace_submatches "%0" "%0" [(0, 2)] 1 ≠ none := by
  constructor
  · rfl
  · decide

/-- C7 amended: submatch expansion deletes a placeholder whose group
index is at least the submatch count, whose group did not participate, or
whose captured range is empty; copies every other character verbatim
(including a `%` not followed by a digit); and returns the distinct
no-expansion result (NULL) exactly when the template is empty or contains
no `%digit` placeholder — a placeholder that is present always yields an
allocated result, even when the expansion equals the input. -/
theorem replace_submatches_spec :
    (∀ (s m : String) (subs : List (Int × Int)) (n : Nat),
        pcmk__replace_submatches s m subs n = none
          ↔ (s = "" ∨ has_placeholder s.toList = false))
    ∧ (∀ (c d : Char) (rest m : List Char) (subs : List (Int × Int)) (n : Nat),
        ¬ (c = '%' ∧ d.isDigit) →
        (process_submatches (c :: d :: rest) m subs n).2
          = c :: (process_submatches (d :: rest) m subs n).2)
    ∧ (∀ (c : Char) (m : List Char) (subs : List (Int × Int)) (n : Nat),
        (process_submatches [c] m subs n).2 = [c])
    ∧ (∀ (d : Char) (rest m : List Char) (subs : List (Int × Int)) (n : Nat),
        d.isDigit →
        (n ≤ d.toNat - 48
          ∨ (subs.getD (d.toNat - 48) (-1, -1)).1 < 0
          ∨ (subs.getD (d.toNat - 48) (-1, -1)).2 ≤ (subs.getD (d.toNat - 48) (-1, -1)).1) →
        (process_submatches ('%' :: d :: rest) m subs n).2
          = (process_submatches rest m subs n).2)
    ∧ (∀ (d : Char) (rest m : List Char) (subs : List (Int × Int)) (n : Nat),
        d.isDigit →
        ¬ n ≤ d.toNat - 48 →
        ¬ ((subs.getD (d.toNat - 48) (-1, -1)).1 < 0
            ∨ (subs.getD (d.toNat - 48) (-1, -1)).2 ≤ (subs.getD (d.toNat - 48) (-1, -1)).1) →
        (process_submatches ('%' :: d :: rest) m subs n).2
          = (m.drop (subs.getD (d.toNat - 48) (-1, -1)).1.toNat).take
              ((subs.getD (d.toNat - 48) (-1, -1)).2 - (subs.getD (d.toNat - 48) (-1, -1)).1).toNat
            ++ (process_submatches rest m subs n).2)
    ∧ pcmk__replace_submatches "backup-%1" "db-prod" [(0, 8), (3, 7)] 2
        = some "backup-prod" := by
  refine ⟨?_, ?_, fun c m subs n => rfl, ?_, ?_, by rfl⟩
  · intro s m subs n
    by_cases hs : s = ""
    · simp [pcmk__replace_submatches, hs]
    · rcases hp : has_placeholder s.toList <;>
        simp [pcmk__replace_submatches, hs, process_submatches_fst, hp] <;>
        exact hp
  · intro c d rest m subs n h
    simp [process_submatches, if_neg h]
  · intro d rest m subs n hd hdead
    by_cases h1 : n ≤ d.toNat - 48
    · simp [process_submatches, hd, h1]
    · have h23 := hdead.resolve_left h1
      simp only [List.getD, List.get?_eq_getElem?] at h23
      simp [process_submatches, hd, h1, h23]
  · intro d rest m subs n hd h1 h23
    simp only [List.getD, List.get?_eq_getElem?] at h23
    simp [process_submatches, hd, h1, h23]

theorem foldl_add_components (d : DurationXml) :
    ∀ (cs : List TimeComp) (t : Instant) (rc : Rc),
      (cs.foldl (add_component_step d) (t, rc)).1
          = { t with applied := t.applied ++ cs.filterMap fun c =>
                match duration_component d c with
                | CompAttr.valid n => some (c, n)
                | _ => none }
      ∧ (cs.foldl (add_component_step d) (t, rc)).2
          = (if cs.any (fun c => decide (duration_component d c = CompAttr.invalid))
             then Rc.unpack_error else rc) := by
  intro cs
  induction cs with
  | nil =>
      intro t rc
      constructor
      · simp
      · simp
  | cons c cs ih =>
      intro t rc
      rw [List.foldl_cons]
      cases hc : duration_component d c with
      | absent =>
          have hstep : add_component_step d (t, rc) c = (t, rc) := by
            simp [add_component_step, pcmk__add_time_from_xml, hc]
          rw [hstep]
          rcases ih t rc with ⟨h1, h2⟩
          refine ⟨?_, ?_⟩
          · rw [h1]; simp [hc]
          · rw [h2]; simp [hc]
      | invalid =>
          have hstep : add_component_step d (t, rc) c = (t, Rc.unpack_error) := by
            simp [add_component_step, pcmk__add_time_from_xml, hc]
          rw [hstep]
          rcases ih t Rc.unpack_error with ⟨h1, h2⟩
          refine ⟨?_, ?_⟩
          · rw [h1]; simp [hc]
          · rw [h2]; simp [hc]
      | valid n =>
          have hstep : add_component_step d (t, rc) c
              = ({ t with applied := t.applied ++ [(c, n)] }, rc) := by
            simp [add_component_step, pcmk__add_time_from_xml, hc]
          rw [hstep]
          rcases ih { t with applied := t.applied ++ [(c, n)] } rc with ⟨h1, h2⟩
          refine ⟨?_, ?_⟩
          · rw [h1]; simp [hc]
          · rw [h2]; simp [hc]

/-- C8: duration addition copies the start instant and applies the seven
components in largest-unit-first order (years, months, weeks, days,
hours, minutes, seconds); each component is attempted independently, an
invalid component is recorded in the return code and skipped while the
remaining components are still applied, and the function always yields
the best-effort end instant: its calendar-addition trace is exactly the
valid components in that fixed order, and the return code is an error
exactly when some component was invalid. -/
theorem unpack_duration_best_effort :
    ∀ (duration : DurationXml) (start : Instant),
      (pcmk__unpack_duration duration start).1
          = { start with applied := start.applied ++ valid_components duration }
      ∧ (pcmk__unpack_duration duration start).2
          = (if has_invalid_component duration then Rc.unpack_error else Rc.ok) := by
  intro d start
  exact foldl_add_components d time_components start Rc.ok

theorem set_time_if_earlier_lowers (h s : Instant) :
    ∃ h', pcmk__set_time_if_earlier (some (some h)) s = some (some h')
      ∧ h'.sec ≤ h.sec := by
  simp only [pcmk__set_time_if_earlier]
  split
  · rename_i hlt
    exact ⟨s, rfl, le_of_lt ((crm_time_compare_neg_iff s h).mp hlt)⟩
  · exact ⟨h, rfl, le_refl _⟩

theorem in_range_end_check_lowers (e? : Option Instant) (now h : Instant) :
    ∃ h', (in_range_end_check e? now (some (some h))).2 = some (some h')
      ∧ h'.sec ≤ h.sec := by
  cases e? with
  | none => exact ⟨h, rfl, le_refl _⟩
  | some e =>
      simp only [in_range_end_check]
      split
      · exact ⟨h, rfl, le_refl _⟩
      · exact set_time_if_earlier_lowers h (crm_time_add_seconds e 1)

/-- C4: each of the three range evaluators (in_range, gt, lt) can only
lower a caller-supplied next-change hint: starting from a supplied,
defined hint, the hint after evaluation is a supplied, defined instant no
later than the hint before. -/
theorem next_change_only_lowered :
    ∀ (e : DateExpr) (now h : Instant),
      (∃ h', (evaluate_in_range e now (some (some h))).2 = some (some h')
          ∧ h'.sec ≤ h.sec)
      ∧ (∃ h', (evaluate_gt e now (some (some h))).2 = some (some h')
          ∧ h'.sec ≤ h.sec)
      ∧ (∃ h', (evaluate_lt e now (some (some h))).2 = some (some h')
          ∧ h'.sec ≤ h.sec) := by
  intro e now h
  obtain ⟨op, st, en, du, ds⟩ := e
  refine ⟨?_, ?_, ?_⟩
  · simp only [evaluate_in_range]
    split
    · exact ⟨h, rfl, le_refl _⟩
    · split
      · rename_i s heq
        split
        · exact set_time_if_earlier_lowers h s
        · exact in_range_end_check_lowers _ now h
      · exact in_range_end_check_lowers _ now h
  · cases st with
    | invalid => exact ⟨h, rfl, le_refl _⟩
    | absent => exact ⟨h, rfl, le_refl _⟩
    | valid s =>
        simp only [evaluate_gt]
        split
        · exact ⟨h, rfl, le_refl _⟩
        · exact set_time_if_earlier_lowers h (crm_time_add_seconds s 1)
  · cases en with
    | invalid => exact ⟨h, rfl, le_refl _⟩
    | absent => exact ⟨h, rfl, le_refl _⟩
    | valid e =>
        simp only [evaluate_lt]
        split
        · exact set_time_if_earlier_lowers h e
        · exact ⟨h, rfl, le_refl _⟩

/-- C1: for a gt date expression with a valid start instant S, evaluation
is `within_range` exactly when now is strictly after S, and otherwise
`before_range` with S plus one second offered as the next-change
candidate; in particular at now = S it is `before_range` with candidate
S + 1s, and at now = S + 1s it is `within_range`. -/
theorem evaluate_gt_valid_start :
    ∀ (op : Option String) (en : DatetimeAttr) (du : Option DurationXml)
      (ds : Option DateSpec) (S now : Instant) (nc : NextChange),
      (evaluate_gt (DateExpr.mk op (DatetimeAttr.valid S) en du ds) now nc
          = if S.sec < now.sec then (Rc.within_range, nc)
            else (Rc.before_range,
                  pcmk__set_time_if_earlier nc (crm_time_add_seconds S 1)))
      ∧ evaluate_gt (DateExpr.mk op (DatetimeAttr.valid S) en du ds) S nc
          = (Rc.before_range, pcmk__set_time_if_earlier nc (crm_time_add_seconds S 1))
      ∧ (evaluate_gt (DateExpr.mk op (DatetimeAttr.valid S) en du ds)
          (crm_time_add_seconds S 1) nc).1 = Rc.within_range := by
  intro op en du ds S now nc
  have key : ∀ m : Instant,
      evaluate_gt (DateExpr.mk op (DatetimeAttr.valid S) en du ds) m nc
        = if S.sec < m.sec then (Rc.within_range, nc)
          else (Rc.before_range,
                pcmk__set_time_if_earlier nc (crm_time_add_seconds S 1)) := by
    intro m
    simp only [evaluate_gt]
    by_cases hlt : S.sec < m.sec
    · rw [if_pos ((crm_time_compare_pos_iff m S).mpr hlt), if_pos hlt]
    · rw [if_neg (fun hc => hlt ((crm_time_compare_pos_iff m S).mp hc)), if_neg hlt]
  refine ⟨key now, ?_, ?_⟩
  · rw [key S, if_neg (lt_irrefl S.sec)]
  · rw [key (crm_time_add_seconds S 1)]
    have : S.sec < (crm_time_add_seconds S 1).sec := by
      simp [crm_time_add_seconds]
    rw [if_pos this]

/-- C3 counterexample: with start S = the zero instant, end absent and no
duration, evaluating the in_range expression at now = S yields
`within_range`, while the gt expression with the same start yields
`before_range` at the same now — so the two verdicts are not equal at
every instant. -/
theorem in_range_vs_gt_at_start_counterexample :
    (evaluate_in_range
        (DateExpr.mk (some "in_range")
          (DatetimeAttr.valid (Instant.mk 0 0 0 0 0 0 0 0 0 0 0 []))
          DatetimeAttr.absent none none)
        (Instant.mk 0 0 0 0 0 0 0 0 0 0 0 []) none).1 = Rc.within_range
    ∧ (evaluate_gt
        (DateExpr.mk (some "gt")
          (DatetimeAttr.valid (Instant.mk 0 0 0 0 0 0 0 0 0 0 0 []))
          DatetimeAttr.absent none none)
        (Instant.mk 0 0 0 0 0 0 0 0 0 0 0 []) none).1 = Rc.before_range
    ∧ (evaluate_in_range
        (DateExpr.mk (some "in_range")
          (DatetimeAttr.valid (Instant.mk 0 0 0 0 0 0 0 0 0 0 0 []))
          DatetimeAttr.absent none none)
        (Instant.mk 0 0 0 0 0 0 0 0 0 0 0 []) none).1
      ≠ (evaluate_gt
          (DateExpr.mk (some "gt")
            (DatetimeAttr.valid (Instant.mk 0 0 0 0 0 0 0 0 0 0 0 []))
            DatetimeAttr.absent none none)
          (Instant.mk 0 0 0 0 0 0 0 0 0 0 0 []) none).1 := by
  exact ⟨rfl, rfl, by decide⟩

/-- C3 corrected: an in_range date expression with a valid start S and
neither an end nor a duration operand is `before_range` exactly when now
is strictly before S and `within_range` otherwise (the start bound is
inclusive), is never `after_range`, and its verdict equals that of the gt
expression with the same start at every now except the start bound
itself, where in_range is `within_range` but gt is `before_range`. -/
theorem in_range_start_only_inclusive :
    ∀ (op op' : Option String) (en' : DatetimeAttr) (du' : Option DurationXml)
      (ds ds' : Option DateSpec) (S now : Instant) (nc nc' : NextChange),
      ((evaluate_in_range
          (DateExpr.mk op (DatetimeAttr.valid S) DatetimeAttr.absent none ds)
          now nc).1
        = if now.sec < S.sec then Rc.before_range else Rc.within_range)
      ∧ (evaluate_in_range
          (DateExpr.mk op (DatetimeAttr.valid S) DatetimeAttr.absent none ds)
          now nc).1 ≠ Rc.after_range
      ∧ ((evaluate_in_range
            (DateExpr.mk op (DatetimeAttr.valid S) DatetimeAttr.absent none ds)
            now nc).1
          = (evaluate_gt
              (DateExpr.mk op' (DatetimeAttr.valid S) en' du' ds')
              now nc').1
        ∨ now.sec = S.sec) := by
  intro op op' en' du' ds ds' S now nc nc'
  have key : (evaluate_in_range
      (DateExpr.mk op (DatetimeAttr.valid S) DatetimeAttr.absent none ds)
      now nc).1
      = if now.sec < S.sec then Rc.before_range else Rc.within_range := by
    simp only [evaluate_in_range, DatetimeAttr.toOption, in_range_end_check]
    by_cases hlt : now.sec < S.sec
    · simp [if_pos ((crm_time_compare_neg_iff now S).mpr hlt), hlt]
    · simp [if_neg (fun hc => hlt ((crm_time_compare_neg_iff now S).mp hc)), hlt]
  have keygt : (evaluate_gt
      (DateExpr.mk op' (DatetimeAttr.valid S) en' du' ds') now nc').1
      = if S.sec < now.sec then Rc.within_range else Rc.before_range := by
    simp only [evaluate_gt]
    by_cases hlt : S.sec < now.sec
    · simp [if_pos ((crm_time_compare_pos_iff now S).mpr hlt), hlt]
    · simp [if_neg (fun hc => hlt ((crm_time_compare_pos_iff now S).mp hc)), hlt]
  refine ⟨key, ?_, ?_⟩
  · rw [key]; split <;> decide
  · rcases lt_trichotomy now.sec S.sec with h | h | h
    · left
      rw [key, keygt, if_pos h, if_neg (by omega)]
    · right; exact h
    · left
      rw [key, keygt, if_neg (by omega), if_pos h]

theorem in_range_end_check_fst (e? : Option Instant) (now : Instant)
    (nc : NextChange) :
    (in_range_end_check e? now nc).1 = Rc.within_range
      ∨ (in_range_end_check e? now nc).1 = Rc.after_range := by
  cases e? with
  | none => exact Or.inl rfl
  | some e =>
      simp only [in_range_end_check]
      split
      · exact Or.inr rfl
      · exact Or.inl rfl

theorem evaluate_in_range_fst (e : DateExpr) (now : Instant) (nc : NextChange) :
    domain_verdict (evaluate_in_range e now nc).1 := by
  simp only [evaluate_in_range]
  split
  · exact Or.inr (Or.inr (Or.inr (Or.inr rfl)))
  · split
    · split
      · exact Or.inr (Or.inr (Or.inl rfl))
      · rcases in_range_end_check_fst _ now nc with h | h
        · exact Or.inr (Or.inl h)
        · exact Or.inr (Or.inr (Or.inr (Or.inl h)))
    · rcases in_range_end_check_fst _ now nc with h | h
      · exact Or.inr (Or.inl h)
      · exact Or.inr (Or.inr (Or.inr (Or.inl h)))

theorem evaluate_gt_fst (e : DateExpr) (now : Instant) (nc : NextChange) :
    domain_verdict (evaluate_gt e now nc).1 := by
  simp only [evaluate_gt]
  split
  · exact Or.inr (Or.inr (Or.inr (Or.inr rfl)))
  · exact Or.inr (Or.inr (Or.inr (Or.inr rfl)))
  · split
    · exact Or.inr (Or.inl rfl)
    · exact Or.inr (Or.inr (Or.inl rfl))

theorem evaluate_lt_fst (e : DateExpr) (now : Instant) (nc : NextChange) :
    domain_verdict (evaluate_lt e now nc).1 := by
  simp only [evaluate_lt]
  split
  · exact Or.inr (Or.inr (Or.inr (Or.inr rfl)))
  · exact Or.inr (Or.inr (Or.inr (Or.inr rfl)))
  · split
    · exact Or.inr (Or.inl rfl)
    · exact Or.inr (Or.inr (Or.inr (Or.inl rfl)))

theorem date_spec_fst (ds : DateSpec) (t : Instant) :
    domain_verdict (pcmk__evaluate_date_spec (some ds) (some t)) := by
  rcases run_checks_cases (date_spec_fields ds t) with h | h | h
  · exact Or.inl h
  · exact Or.inr (Or.inr (Or.inl h))
  · exact Or.inr (Or.inr (Or.inr (Or.inl h)))

theorem domain_verdict_ne_einval (r : Rc) :
    domain_verdict r → r ≠ Rc.einval := by
  rintro (rfl | rfl | rfl | rfl | rfl) <;> decide

/-- C9: evaluating a date expression with an absent expression or absent
now argument returns the distinct invalid-argument signal `EINVAL`
without touching the next-change hint, and for every non-absent pair of
arguments the result is one of the domain verdicts ok, within_range,
before_range, after_range, undetermined — never the invalid-argument
signal. -/
theorem date_expression_arg_contract :
    (∀ (now : Option Instant) (nc : NextChange),
        pcmk__evaluate_date_expression none now nc = (Rc.einval, nc))
    ∧ (∀ (e : DateExpr) (nc : NextChange),
        pcmk__evaluate_date_expression (some e) none nc = (Rc.einval, nc))
    ∧ (∀ (e : DateExpr) (t : Instant) (nc : NextChange),
        domain_verdict (pcmk__evaluate_date_expression (some e) (some t) nc).1
        ∧ (pcmk__evaluate_date_expression (some e) (some t) nc).1 ≠ Rc.einval) := by
  refine ⟨fun now nc => by cases now <;> rfl, fun e nc => rfl, ?_⟩
  intro e t nc
  have hd : domain_verdict (pcmk__evaluate_date_expression (some e) (some t) nc).1 := by
    simp only [pcmk__evaluate_date_expression]
    split
    · exact evaluate_in_range_fst e t nc
    · split
      · cases hds : e.date_spec with
        | none => simp only [hds]; exact Or.inr (Or.inr (Or.inr (Or.inr rfl)))
        | some ds => simp only [hds]; exact date_spec_fst ds t
      · split
        · exact evaluate_gt_fst e t nc
        · split
          · exact evaluate_lt_fst e t nc
          · exact Or.inr (Or.inr (Or.inr (Or.inr rfl)))
  exact ⟨hd, domain_verdict_ne_einval _ hd⟩

/-- C10: a date expression whose operation attribute is absent is
evaluated exactly as an in_range expression — the NULL operation token
matches the in_range branch (null-matches flag) instead of being treated
as an unrecognized operation yielding `undetermined`. -/
theorem null_operation_defaults_to_in_range :
    ∀ (st en : DatetimeAttr) (du : Option DurationXml) (ds : Option DateSpec)
      (t : Instant) (nc : NextChange),
      pcmk__evaluate_date_expression
          (some (DateExpr.mk none st en du ds)) (some t) nc
        = evaluate_in_range (DateExpr.mk none st en du ds) t nc
      ∧ pcmk__evaluate_date_expression
          (some (DateExpr.mk none st en du ds)) (some t) nc
        = pcmk__evaluate_date_expression
            (some (DateExpr.mk (some "in_range") st en du ds)) (some t) nc := by
  intro st en du ds t nc
  constructor
  · rfl
  · rfl

end Rules
